import Mathlib

/-!
# Verification of the `bounce` force/collision core

A shallow embedding of the repository's physics core (`src/physics.rs`,
`src/lib.rs`) in Lean 4, with theorems checking the natural-language
specification against it.

Modelling conventions:
* `f32` scalars are idealized as real numbers `ℝ`; `glam::Vec2` becomes the
  structure `Vec2` below, with the same componentwise operations
  (`perp`, `dot`, `length`, `normalize_or_zero`, `min_element`).
* The `phy` solver machinery is specialized away: a `Var` is a pair of the
  current value and the accumulating derivative, exactly the two fields the
  core reads and writes.  `Rot2` is a planar rotation stored as an angle.
* The `Actor` trait (the force sink) becomes a record of one function
  threading an explicit sink state `σ` and returning the possibly-updated
  body, mirroring `fn apply(&mut self, body: &mut Body, pos, force)`.
* The geometric intersection collaborator (`geom2` crate, not part of this
  repository) is consumed as a black box, exactly as the spec's §6 contract
  demands: an `Oracle` record supplies the optional overlap moment (and, for
  the weighted "meta" intersections, the overlap's weighted boundary edges)
  for each primitive pair.  All repository-side processing of the oracle's
  answers (weighted edge summation, normalization, sign conventions,
  thresholds) is translated from the source.
-/

noncomputable section

/-! ## Vectors (`glam::Vec2`) -/

/-- 2D vector with real components, modelling `glam::Vec2`. -/
structure Vec2 where
  x : ℝ
  y : ℝ

instance : DecidableEq Vec2 := Classical.decEq Vec2

namespace Vec2

instance : Zero Vec2 := ⟨⟨0, 0⟩⟩
instance : Add Vec2 := ⟨fun a b => ⟨a.x + b.x, a.y + b.y⟩⟩
instance : Sub Vec2 := ⟨fun a b => ⟨a.x - b.x, a.y - b.y⟩⟩
instance : Neg Vec2 := ⟨fun a => ⟨-a.x, -a.y⟩⟩
instance : SMul ℝ Vec2 := ⟨fun r a => ⟨r * a.x, r * a.y⟩⟩
instance : HDiv Vec2 ℝ Vec2 := ⟨fun a r => ⟨a.x / r, a.y / r⟩⟩

@[simp] theorem zero_x : (0 : Vec2).x = 0 := rfl
@[simp] theorem zero_y : (0 : Vec2).y = 0 := rfl
@[simp] theorem add_x (a b : Vec2) : (a + b).x = a.x + b.x := rfl
@[simp] theorem add_y (a b : Vec2) : (a + b).y = a.y + b.y := rfl
@[simp] theorem sub_x (a b : Vec2) : (a - b).x = a.x - b.x := rfl
@[simp] theorem sub_y (a b : Vec2) : (a - b).y = a.y - b.y := rfl
@[simp] theorem neg_x (a : Vec2) : (-a).x = -a.x := rfl
@[simp] theorem neg_y (a : Vec2) : (-a).y = -a.y := rfl
@[simp] theorem smul_x (r : ℝ) (a : Vec2) : (r • a).x = r * a.x := rfl
@[simp] theorem smul_y (r : ℝ) (a : Vec2) : (r • a).y = r * a.y := rfl

theorem ext {a b : Vec2} (hx : a.x = b.x) (hy : a.y = b.y) : a = b := by
  cases a; cases b; cases hx; cases hy; rfl

/-- `glam::Vec2::perp`: rotation by 90° counterclockwise, `(-y, x)`. -/
def perp (a : Vec2) : Vec2 := ⟨-a.y, a.x⟩

/-- `glam::Vec2::dot`. -/
def dot (a b : Vec2) : ℝ := a.x * b.x + a.y * b.y

/-- `glam::Vec2::length`. -/
noncomputable def length (a : Vec2) : ℝ := Real.sqrt (a.x ^ 2 + a.y ^ 2)

/-- `glam::Vec2::normalize_or_zero`: the unit vector along `a`,
or zero when `a` is zero. -/
noncomputable def normalize_or_zero (a : Vec2) : Vec2 :=
  if a = 0 then 0 else (a.length)⁻¹ • a

/-- `glam::Vec2::min_element`. -/
noncomputable def min_element (a : Vec2) : ℝ := min a.x a.y

@[simp] theorem perp_x (a : Vec2) : a.perp.x = -a.y := rfl
@[simp] theorem perp_y (a : Vec2) : a.perp.y = a.x := rfl

end Vec2

/-! ## Rotations (`phy::Rot2`) -/

/-- Planar rotation, stored as its angle. -/
structure Rot2 where
  angle : ℝ

namespace Rot2

/-- Apply the rotation to a vector. -/
noncomputable def transform (r : Rot2) (v : Vec2) : Vec2 :=
  ⟨Real.cos r.angle * v.x - Real.sin r.angle * v.y,
   Real.sin r.angle * v.x + Real.cos r.angle * v.y⟩

/-- The inverse rotation. -/
def inverse (r : Rot2) : Rot2 := ⟨-r.angle⟩

end Rot2

/-- `phy::angular_to_linear2`: linear velocity of a point at offset `r`
from the rotation center, spinning with angular speed `w`. -/
def angular_to_linear2 (w : ℝ) (r : Vec2) : Vec2 := w • r.perp

/-- `phy::torque2`: the 2D cross product `r.x * f.y - r.y * f.x`. -/
def torque2 (r f : Vec2) : ℝ := r.x * f.y - r.y * f.x

/-! ## Tuning constants (`src/physics.rs`) -/

/-- Overlap-area epsilon below which a contact is ignored. -/
def AREA_EPS : ℝ := 0
/-- Mass factor. -/
def MASF : ℝ := 1
/-- Moment of inertia factor. -/
def INMF : ℝ := 0.2
/-- Gravity. -/
def GRAV : Vec2 := ⟨0, 4⟩
/-- Air resistance. -/
def AIRF : ℝ := 0.01
/-- Elasticity of balls. -/
def ELAST : ℝ := 200
/-- Damping factor. -/
def DAMP : ℝ := 0.2
/-- Liquid friction. -/
def FRICT : ℝ := 0.4
/-- Mouse attraction damping. -/
def MOUSE_DAMP : ℝ := 4
/-- Wall offset factor. -/
def WALL_OFFSET : ℝ := 0.04

/-! ## State variables and bodies -/

/-- A differentiable state cell (`phy::Var`): current value plus the
accumulating derivative.  The derivative may live in a different type than
the value (a rotation's derivative is an angular rate). -/
structure Var (α : Type) (β : Type) where
  val : α
  deriv : β

/-- Rigid body (`physics::Body`). -/
structure Body where
  mass : ℝ
  pos : Var Vec2 Vec2
  vel : Var Vec2 Vec2
  /-- Moment of inertia. -/
  inm : ℝ
  /-- Rotation. -/
  rot : Var Rot2 ℝ
  /-- Angular speed. -/
  asp : Var ℝ ℝ

/-- The force sink (`physics::Actor`): receives `(body, point, force)` and
may update its own state `σ` and the body. -/
structure Actor (σ : Type) where
  apply : σ → Body → Vec2 → Vec2 → σ × Body

/-- The derivative-accumulating sink (`physics::DerivActor`):
`vel.deriv += force / mass`, `asp.deriv += torque2(pos − body.pos, force) / inm`. -/
def DerivActor : Actor Unit :=
  ⟨fun s b pos force =>
    (s, { b with
      vel := { b.vel with deriv := b.vel.deriv + force / b.mass },
      asp := { b.asp with
        deriv := b.asp.deriv + torque2 (pos - b.pos.val) force / b.inm } })⟩

/-- A pure observation sink in the style of `DrawActor` (`src/lib.rs`): it
records each `(body, point, force)` application in order and leaves the
body untouched.  Used to state which forces a pass delivers through the
sink, and to which body. -/
def RecordActor : Actor (List (Body × Vec2 × Vec2)) :=
  ⟨fun s b pos force => (s ++ [(b, pos, force)], b)⟩

namespace Body

/-- `Body::vel_at`: velocity of the body's material point at `p`. -/
def vel_at (b : Body) (p : Vec2) : Vec2 :=
  b.vel.val + angular_to_linear2 b.asp.val (p - b.pos.val)

/-- `Body::contact`: influence the body by directed deformation `defo` at
point of contact `pos` moving with velocity `vel`. -/
noncomputable def contact {σ : Type} (a : Actor σ) (s : σ) (b : Body)
    (defo pos vel : Vec2) : σ × Body :=
  let v := b.vel_at pos - vel
  let norm := defo.normalize_or_zero
  let elast_f := ELAST • defo
  let damp_f := (-DAMP * v.dot norm) • elast_f
  let frict_f := (-FRICT * v.dot norm.perp) • elast_f.perp
  let total_f := elast_f + damp_f + frict_f
  a.apply s b pos total_f

/-- `Body::attract`: pin the `self_pos` point in local item coordinates to
`target` in world space. -/
noncomputable def attract {σ : Type} (a : Actor σ) (s : σ) (b : Body)
    (target self_pos : Vec2) : σ × Body :=
  let loc_pos := b.rot.val.transform self_pos
  let rel_pos := target - (b.pos.val + loc_pos)
  let vel := b.vel.val + angular_to_linear2 b.asp.val loc_pos
  let elast_f := ELAST • rel_pos
  let damp_f := (-MOUSE_DAMP) • vel
  let total_f := elast_f + damp_f
  a.apply s b (b.pos.val + loc_pos) total_f

end Body

/-! ## Shapes and items -/

/-- `physics::Shape`. -/
inductive Shape where
  | Circle (radius : ℝ)
  | Rectangle (size : Vec2)

namespace Shape

/-- `Shape::radius`: the pick radius — the radius for circles, the smaller
half-extent component for rectangles. -/
def radius : Shape → ℝ
  | Circle r => r
  | Rectangle size => size.min_element

end Shape

/-- An item (`lib::Item`): a body plus a shape.  The rendering metadata
(texture, color) is out of scope and carries no physics, so it is omitted. -/
structure Item where
  body : Body
  shape : Shape

instance : Inhabited Item :=
  ⟨⟨⟨1, ⟨0, 0⟩, ⟨0, 0⟩, 1, ⟨⟨0⟩, 0⟩, ⟨0, 0⟩⟩, Shape.Circle 1⟩⟩

/-! ## Boundary primitives and the intersection collaborator -/

/-- `geom2::Circle` promoted to a disk region. -/
structure Disk where
  center : Vec2
  radius : ℝ

/-- `geom2::HalfPlane`: inward normal and signed offset. -/
structure HalfPlane where
  normal : Vec2
  offset : ℝ

/-- `geom2::Moment`: an overlap region's area and centroid. -/
structure Moment where
  area : ℝ
  centroid : Vec2

/-- One weighted boundary edge of a "meta" overlap: the edge's (chord)
vector together with its interpolated weight. -/
structure MetaEdge where
  vec : Vec2
  meta : ℝ

/-- An item's projected world-space geometry: a disk or a polygon
(vertex list). -/
inductive Geometry where
  | disk (d : Disk)
  | poly (vs : List Vec2)

/-- The geometric intersection collaborator (the `geom2` crate), consumed as
a black box per the spec's external-interface contract: each intersection
query returns an optional overlap, reduced to its moment (and, for the
weighted "meta" intersections, the list of weighted overlap boundary edges).
The two real-number arguments of the meta queries are the per-operand
boundary weights. -/
structure Oracle where
  diskPlane : Disk → HalfPlane → Option Moment
  polyPlane : List Vec2 → HalfPlane → Option Moment
  diskDisk : Disk → Disk → Option Moment
  diskPoly : Disk → ℝ → List Vec2 → ℝ → Option (Moment × List MetaEdge)
  polyPoly : List Vec2 → ℝ → List Vec2 → ℝ → Option (Moment × List MetaEdge)

namespace Item

/-- `Item::geometry`: project the shape through the body's current pose. -/
def geometry (it : Item) : Geometry :=
  match it.shape with
  | Shape.Circle radius => Geometry.disk ⟨it.body.pos.val, radius⟩
  | Shape.Rectangle size =>
    let vertex := it.body.rot.val.transform size
    Geometry.poly
      [it.body.pos.val - vertex, it.body.pos.val - vertex.perp,
       it.body.pos.val + vertex, it.body.pos.val + vertex.perp]

end Item

/-! ## Wall contact (`physics::contact_wall`) -/

/-- The overlap moment of an item's projected geometry with a wall
half-plane, as answered by the intersection collaborator. -/
def wallOverlay (o : Oracle) (g : Geometry) (wall : HalfPlane) : Option Moment :=
  match g with
  | Geometry.disk d => o.diskPlane d wall
  | Geometry.poly p => o.polyPlane p wall

/-- `physics::contact_wall`. -/
def contact_wall {σ : Type} (a : Actor σ) (o : Oracle) (s : σ) (item : Item)
    (offset : ℝ) (normal : Vec2) : σ × Item :=
  let wall : HalfPlane := ⟨normal, offset⟩
  match wallOverlay o item.geometry wall with
  | some overlay =>
    if overlay.area > AREA_EPS then
      let dir := normal
      let force := overlay.area
      let poa := overlay.centroid
      let r := Body.contact a s item.body (force • dir) poa 0
      (r.1, { item with body := r.2 })
    else (s, item)
  | none => (s, item)

/-! ## Pairwise collision (`Item::collide`) -/

/-- The repository-side reduction of a meta overlap's weighted boundary
edges to a contact direction:
`perp(normalize_or_zero(Σ edge_vector · edge_weight))`. -/
def metaDir (edges : List MetaEdge) : Vec2 :=
  ((edges.map fun e : MetaEdge => e.meta • e.vec).foldl (· + ·) 0).normalize_or_zero.perp

/-- The `(area, direction, centroid)` triple computed by the dispatch at the
top of `Item::collide`, `none` when the shapes do not overlap. -/
def collideGeom (o : Oracle) (self other : Item) : Option (ℝ × Vec2 × Vec2) :=
  match self.geometry, other.geometry with
  | Geometry.disk c1, Geometry.disk c2 =>
    (o.diskDisk c1 c2).map fun m =>
      (m.area, other.body.pos.val - self.body.pos.val, m.centroid)
  | Geometry.disk c, Geometry.poly p =>
    (o.diskPoly c (-0.5) p 0.5).map fun r =>
      (r.1.area,
       match self.shape with
       | Shape.Circle _ => metaDir r.2
       | Shape.Rectangle _ => -metaDir r.2,
       r.1.centroid)
  | Geometry.poly p, Geometry.disk c =>
    (o.diskPoly c (-0.5) p 0.5).map fun r =>
      (r.1.area,
       match self.shape with
       | Shape.Circle _ => metaDir r.2
       | Shape.Rectangle _ => -metaDir r.2,
       r.1.centroid)
  | Geometry.poly p1, Geometry.poly p2 =>
    (o.polyPoly p1 (-0.5) p2 0.5).map fun r => (r.1.area, metaDir r.2, r.1.centroid)

/-- `Item::collide`: on sufficient overlap, apply the symmetric pair of
contacts.  Mirrors the source's sequencing: the second contact's reference
velocity reads `self`'s body after the first sink application. -/
def Item.collide {σ : Type} (a : Actor σ) (o : Oracle) (s : σ)
    (self other : Item) : σ × Item × Item :=
  match collideGeom o self other with
  | some (area, dir, poa) =>
    if area > AREA_EPS then
      let force := area
      let r1 := Body.contact a s self.body (-force • dir) poa (other.body.vel_at poa)
      let r2 := Body.contact a r1.1 other.body (force • dir) poa (r1.2.vel_at poa)
      (r2.1, { self with body := r1.2 }, { other with body := r2.2 })
    else (s, self, other)
  | none => (s, self, other)

/-! ## The world and its derivative pass -/

/-- `lib::World`: box half-extent, item collection, optional drag state
`(item index, world target, body-local anchor)`. -/
structure World where
  size : Vec2
  items : List Item
  drag : Option (ℕ × Vec2 × Vec2)

/-- The wall segment of `World::compute_derivs_ext`'s per-item loop: the
four wall tests against the inset box.  `self.size - WALL_OFFSET *
self.size.min_element()` subtracts the scalar margin componentwise, as
`glam`'s `Vec2 - f32` does. -/
def wallsPhase {σ : Type} (a : Actor σ) (o : Oracle) (size : Vec2) (s : σ)
    (item : Item) : σ × Item :=
  let wall_size : Vec2 :=
    ⟨size.x - WALL_OFFSET * size.min_element, size.y - WALL_OFFSET * size.min_element⟩
  let r1 := contact_wall a o s item (-wall_size.x) ⟨1, 0⟩
  let r2 := contact_wall a o r1.1 r1.2 (-wall_size.x) ⟨-1, 0⟩
  let r3 := contact_wall a o r2.1 r2.2 (-wall_size.y) ⟨0, 1⟩
  let r4 := contact_wall a o r3.1 r3.2 (-wall_size.y) ⟨0, -1⟩
  r4

/-- The per-item first phase of `World::compute_derivs_ext`: kinematics,
gravity, air resistance, and the four wall tests, in source order. -/
def itemStep {σ : Type} (a : Actor σ) (o : Oracle) (size : Vec2) (s : σ)
    (item : Item) : σ × Item :=
  let radius := item.shape.radius
  let body := item.body
  let body := { body with
    pos := { body.pos with deriv := body.pos.deriv + body.vel.val },
    rot := { body.rot with deriv := body.rot.deriv + body.asp.val } }
  -- Gravity
  let rg := a.apply s body body.pos.val (body.mass • GRAV)
  let s := rg.1
  let body := rg.2
  -- Air resistance
  let body := { body with
    vel := { body.vel with
      deriv := body.vel.deriv + (-(AIRF * radius / body.mass)) • body.vel.val },
    asp := { body.asp with
      deriv := body.asp.deriv + (-(AIRF * radius / body.inm)) * body.asp.val } }
  let item := { item with body := body }
  -- Walls
  wallsPhase a o size s item

/-- Phase 1 of `World::compute_derivs_ext`, folded over the items in
storage order. -/
def itemsPhase {σ : Type} (a : Actor σ) (o : Oracle) (size : Vec2) :
    σ → List Item → σ × List Item
  | s, [] => (s, [])
  | s, it :: rest =>
    let r := itemStep a o size s it
    let r2 := itemsPhase a o size r.1 rest
    (r2.1, r.2 :: r2.2)

/-- The inner loop of phase 2: collide `this` with each of `others` in
order, threading the sink state and the updated bodies. -/
def collideSeq {σ : Type} (a : Actor σ) (o : Oracle) :
    σ → Item → List Item → σ × Item × List Item
  | s, this, [] => (s, this, [])
  | s, this, other :: rest =>
    let r1 := Item.collide a o s this other
    let r2 := collideSeq a o r1.1 r1.2.1 rest
    (r2.1, r2.2.1, r1.2.2 :: r2.2.2)

/-- `collideSeq` never changes the number of the remaining items. -/
theorem collideSeq_len {σ : Type} (a : Actor σ) (o : Oracle) :
    ∀ (s : σ) (this : Item) (others : List Item),
      ((collideSeq a o s this others).2.2).length = others.length := by
  intro s this others
  induction others generalizing s this with
  | nil => rfl
  | cons other rest ih => simp [collideSeq, ih]

/-- Phase 2 of `World::compute_derivs_ext` (the `split_at_mut` loop): each
item collides with every later item. -/
def pairPhase {σ : Type} (a : Actor σ) (o : Oracle) :
    σ → List Item → σ × List Item
  | s, [] => (s, [])
  | s, x :: xs =>
    let r1 := collideSeq a o s x xs
    let r2 := pairPhase a o r1.1 r1.2.2
    (r2.1, r1.2.1 :: r2.2)
termination_by s items => items.length
decreasing_by simp [collideSeq_len]

/-- Phase 3 of `World::compute_derivs_ext`: the drag attraction.  The Rust
indexing `self.items[i]` can only be reached in bounds (the drag invariant);
out-of-range reads are modelled by the default item. -/
def dragPhase {σ : Type} (a : Actor σ) (s : σ)
    (drag : Option (ℕ × Vec2 × Vec2)) (items : List Item) : σ × List Item :=
  match drag with
  | some (i, target, loc_pos) =>
    let item := items.getD i default
    let r := Body.attract a s item.body target loc_pos
    (r.1, items.set i { item with body := r.2 })
  | none => (s, items)

/-- `World::compute_derivs_ext`. -/
def World.compute_derivs_ext {σ : Type} (a : Actor σ) (o : Oracle) (s : σ)
    (w : World) : σ × World :=
  let r1 := itemsPhase a o w.size s w.items
  let r2 := pairPhase a o r1.1 r1.2
  let r3 := dragPhase a r2.1 w.drag r2.2
  (r3.1, { w with items := r3.2 })

/-! ## World operations (`src/lib.rs`) -/

namespace World

/-- `World::new`. -/
def new (size : Vec2) : World := ⟨size, [], none⟩

/-- The `enumerate().find_map(..)` scan of `World::drag_acquire`, started at
index `i`: the first item whose pick radius contains `pos` by straight-line
distance to its center yields `(index, pos, pos in the item's un-rotated
local frame)`. -/
def acquireScan (pos : Vec2) : List Item → ℕ → Option (ℕ × Vec2 × Vec2)
  | [], _ => none
  | item :: rest, i =>
    let rel_pos := pos - item.body.pos.val
    if rel_pos.length < item.shape.radius then
      some (i, pos, item.body.rot.val.inverse.transform rel_pos)
    else acquireScan pos rest (i + 1)

/-- `World::drag_acquire`. -/
def drag_acquire (w : World) (pos : Vec2) : World :=
  { w with drag := acquireScan pos w.items 0 }

/-- `World::drag_move`. -/
def drag_move (w : World) (pos : Vec2) : World :=
  match w.drag with
  | some (i, _, l) => { w with drag := some (i, pos, l) }
  | none => w

/-- `World::drag_release`. -/
def drag_release (w : World) : World := { w with drag := none }

/-- `World::n_items`. -/
def n_items (w : World) : ℕ := w.items.length

/-- `World::remove_item` (its effect on the world; the removed item is also
returned to the caller in the source). -/
def remove_item (w : World) (i : ℕ) : World :=
  { w with drag := none, items := w.items.eraseIdx i }

/-- `World::insert_item` (`Vec::push`). -/
def insert_item (w : World) (item : Item) : World :=
  { w with items := w.items ++ [item] }

/-- `World::resize`. -/
def resize (w : World) (size : Vec2) : World := { w with size := size }

end World

/-! ## Vector algebra helper lemmas -/

namespace Vec2

theorem neg_zero_vec : -(0 : Vec2) = 0 := by
  apply ext <;> simp

theorem ext_iff_vec {a b : Vec2} : a = b ↔ a.x = b.x ∧ a.y = b.y :=
  ⟨fun h => by rw [h]; exact ⟨rfl, rfl⟩, fun h => ext h.1 h.2⟩

theorem neg_eq_zero_iff (a : Vec2) : -a = 0 ↔ a = 0 := by
  rw [ext_iff_vec, ext_iff_vec]; simp

theorem smul_neg_vec (r : ℝ) (a : Vec2) : r • (-a) = -(r • a) := by
  apply ext <;> simp

theorem neg_smul_vec (r : ℝ) (a : Vec2) : (-r) • a = -(r • a) := by
  apply ext <;> simp

theorem perp_neg (a : Vec2) : (-a).perp = -a.perp := by
  apply ext <;> simp

theorem dot_neg_left (a b : Vec2) : (-a).dot b = -(a.dot b) := by
  simp [dot]; ring

theorem dot_neg_right (a b : Vec2) : a.dot (-b) = -(a.dot b) := by
  simp [dot]; ring

theorem neg_sub_vec (a b : Vec2) : a - b = -(b - a) := by
  apply ext <;> simp

theorem length_neg (a : Vec2) : (-a).length = a.length := by
  simp [length]

theorem normalize_or_zero_zero : (0 : Vec2).normalize_or_zero = 0 := by
  simp [normalize_or_zero]

theorem normalize_or_zero_neg (a : Vec2) :
    (-a).normalize_or_zero = -a.normalize_or_zero := by
  by_cases h : a = 0
  · rw [h, neg_zero_vec, normalize_or_zero_zero, neg_zero_vec]
  · have h' : ¬(-a = 0) := fun hc => h ((neg_eq_zero_iff a).mp hc)
    rw [normalize_or_zero, normalize_or_zero, if_neg h, if_neg h', length_neg,
      smul_neg_vec]

theorem smul_zero_vec (r : ℝ) : r • (0 : Vec2) = 0 := by
  apply ext <;> simp

theorem add_zero_vec (a : Vec2) : a + 0 = a := by
  apply ext <;> simp

theorem zero_add_vec (a : Vec2) : 0 + a = a := by
  apply ext <;> simp

theorem neg_add_vec (a b : Vec2) : -(a + b) = -a + -b := by
  apply ext <;> simp <;> ring

end Vec2

/-! ## The contact force components, named

The three force components of `Body::contact`, extracted from its
`let`-bindings so theorems can speak about them individually.  `contact`
is definitionally the sink application of their sum. -/

/-- Elastic force (normal reaction): `ELAST * def`. -/
def contactElast (defo : Vec2) : Vec2 := ELAST • defo

/-- Damping force (parallel to the contact normal). -/
def contactDamp (b : Body) (defo pos vel : Vec2) : Vec2 :=
  (-DAMP * (b.vel_at pos - vel).dot defo.normalize_or_zero) • contactElast defo

/-- Liquid friction force (perpendicular to the contact normal). -/
def contactFrict (b : Body) (defo pos vel : Vec2) : Vec2 :=
  (-FRICT * (b.vel_at pos - vel).dot defo.normalize_or_zero.perp) •
    (contactElast defo).perp

/-- Total contact force. -/
def contactTotal (b : Body) (defo pos vel : Vec2) : Vec2 :=
  contactElast defo + contactDamp b defo pos vel + contactFrict b defo pos vel

/-- `Body::contact` delivers exactly the total of its three components to
the sink, at the point of contact. -/
theorem Body.contact_eq_apply {σ : Type} (a : Actor σ) (s : σ) (b : Body)
    (defo pos vel : Vec2) :
    Body.contact a s b defo pos vel = a.apply s b pos (contactTotal b defo pos vel) := rfl

theorem Vec2.perp_zero : (0 : Vec2).perp = 0 := by
  apply Vec2.ext <;> simp

/-! ## Antisymmetry of the contact force components -/

theorem contactElast_neg (d : Vec2) : contactElast (-d) = -contactElast d := by
  unfold contactElast
  rw [Vec2.smul_neg_vec]

theorem contactDamp_neg (bA bB : Body) (d c : Vec2) :
    contactDamp bA (-d) c (bB.vel_at c) = -contactDamp bB d c (bA.vel_at c) := by
  unfold contactDamp
  rw [Vec2.normalize_or_zero_neg, Vec2.dot_neg_right, contactElast_neg,
    Vec2.smul_neg_vec, Vec2.neg_sub_vec (bB.vel_at c) (bA.vel_at c),
    Vec2.dot_neg_left]

theorem contactFrict_neg (bA bB : Body) (d c : Vec2) :
    contactFrict bA (-d) c (bB.vel_at c) = -contactFrict bB d c (bA.vel_at c) := by
  unfold contactFrict
  rw [Vec2.normalize_or_zero_neg, Vec2.perp_neg, Vec2.dot_neg_right,
    contactElast_neg, Vec2.perp_neg, Vec2.smul_neg_vec,
    Vec2.neg_sub_vec (bB.vel_at c) (bA.vel_at c), Vec2.dot_neg_left]

theorem contactTotal_neg (bA bB : Body) (d c : Vec2) :
    contactTotal bA (-d) c (bB.vel_at c) = -contactTotal bB d c (bA.vel_at c) := by
  unfold contactTotal
  rw [contactElast_neg, contactDamp_neg, contactFrict_neg, Vec2.neg_add_vec,
    Vec2.neg_add_vec]

/-- `Body::contact` through the recording sink: the state grows by exactly
one application, carrying the body, the contact point and the total force. -/
theorem contact_record (s : List (Body × Vec2 × Vec2)) (b : Body)
    (defo pos vel : Vec2) :
    Body.contact RecordActor s b defo pos vel =
      (s ++ [(b, pos, contactTotal b defo pos vel)], b) := rfl

/-! ## Concrete inputs used by the witness theorems -/

/-- A concrete item: unit-radius circle at the origin, at rest, mass 1. -/
def witItem : Item :=
  ⟨⟨1, ⟨⟨0, 0⟩, ⟨0, 0⟩⟩, ⟨⟨0, 0⟩, ⟨0, 0⟩⟩, 1, ⟨⟨0⟩, 0⟩, ⟨0, 0⟩⟩, Shape.Circle 1⟩

/-- A concrete intersection collaborator answering every query with an
overlap of area 1 centred at the origin (and no boundary edges). -/
def someOracle : Oracle :=
  ⟨fun _ _ => some ⟨1, 0⟩, fun _ _ => some ⟨1, 0⟩, fun _ _ => some ⟨1, 0⟩,
   fun _ _ _ _ => some (⟨1, 0⟩, []), fun _ _ _ _ => some (⟨1, 0⟩, [])⟩

/-- A concrete intersection collaborator answering every query with
"no overlap". -/
def noneOracle : Oracle :=
  ⟨fun _ _ => none, fun _ _ => none, fun _ _ => none,
   fun _ _ _ _ => none, fun _ _ _ _ => none⟩

/-! ## Claim theorems -/

/-- C2: for every body, sink, deformation, contact point and reference
velocity, `contact` delivers to the sink at the contact point exactly
`total = elastic + damping + friction`, with
`relative_velocity = velocity_at(p) − v_ref`, `normal = normalize(def)`
(zero when `def` is zero), `elastic = STIFFNESS·def`,
`damping = −DAMPING·(relative_velocity·normal)·elastic`, and
`friction = −FRICTION·(relative_velocity·perp(normal))·perp(elastic)`. -/
theorem contact_delivers_total {σ : Type} (a : Actor σ) (s : σ) (b : Body)
    (defo p v_ref : Vec2) :
    Body.contact a s b defo p v_ref =
      a.apply s b p
        (ELAST • defo
          + (-DAMP * ((b.vel_at p - v_ref).dot defo.normalize_or_zero))
              • (ELAST • defo)
          + (-FRICT * ((b.vel_at p - v_ref).dot defo.normalize_or_zero.perp))
              • (ELAST • defo).perp)
    ∧ (0 : Vec2).normalize_or_zero = 0 :=
  ⟨rfl, Vec2.normalize_or_zero_zero⟩

/-- C9: `contact` called with a zero deformation vector delivers a zero
total force — zero elastic, damping, and friction components — regardless
of the relative velocity at the contact point. -/
theorem contact_zero_deformation {σ : Type} (a : Actor σ) (s : σ) (b : Body)
    (p v_ref : Vec2) :
    Body.contact a s b 0 p v_ref = a.apply s b p 0
    ∧ contactElast 0 = 0
    ∧ contactDamp b 0 p v_ref = 0
    ∧ contactFrict b 0 p v_ref = 0
    ∧ contactTotal b 0 p v_ref = 0 := by
  have hel : contactElast 0 = 0 := Vec2.smul_zero_vec ELAST
  have hda : contactDamp b 0 p v_ref = 0 := by
    unfold contactDamp
    rw [hel, Vec2.smul_zero_vec]
  have hfr : contactFrict b 0 p v_ref = 0 := by
    unfold contactFrict
    rw [hel, Vec2.perp_zero, Vec2.smul_zero_vec]
  have hto : contactTotal b 0 p v_ref = 0 := by
    unfold contactTotal
    rw [hel, hda, hfr, Vec2.add_zero_vec, Vec2.add_zero_vec]
  exact ⟨by rw [Body.contact_eq_apply, hto], hel, hda, hfr, hto⟩

/-- C1: for every contacting pair (A, B) whose overlap has area `a` above
the epsilon, direction `d` and centroid `c`, the pass delivers through the
sink, at `c`, a total force to A that is the exact negation of the total
force delivered to B: A receives the contact for deformation `−a·d` with
reference velocity `B.velocity_at(c)`, B the contact for deformation
`+a·d` with reference velocity `A.velocity_at(c)`, and the elastic,
damping, and friction components are each antisymmetric between the two. -/
theorem collide_forces_antisymmetric (o : Oracle)
    (s : List (Body × Vec2 × Vec2)) (A B : Item) (area : ℝ) (d c : Vec2)
    (hg : collideGeom o A B = some (area, d, c))
    (hpos : area > AREA_EPS) :
    Item.collide RecordActor o s A B =
      (s ++ [(A.body, c, contactTotal A.body ((-area) • d) c (B.body.vel_at c)),
             (B.body, c, contactTotal B.body (area • d) c (A.body.vel_at c))],
       A, B)
    ∧ contactTotal A.body ((-area) • d) c (B.body.vel_at c)
        = -contactTotal B.body (area • d) c (A.body.vel_at c)
    ∧ contactElast ((-area) • d) = -contactElast (area • d)
    ∧ contactDamp A.body ((-area) • d) c (B.body.vel_at c)
        = -contactDamp B.body (area • d) c (A.body.vel_at c)
    ∧ contactFrict A.body ((-area) • d) c (B.body.vel_at c)
        = -contactFrict B.body (area • d) c (A.body.vel_at c) := by
  have hneg : (-area) • d = -(area • d) := Vec2.neg_smul_vec area d
  refine ⟨?_, ?_, ?_, ?_, ?_⟩
  · unfold Item.collide
    rw [hg]
    simp only []
    rw [if_pos hpos, contact_record, contact_record]
    simp [List.append_assoc]
  · rw [hneg]; exact contactTotal_neg A.body B.body (area • d) c
  · rw [hneg]; exact contactElast_neg (area • d)
  · rw [hneg]; exact contactDamp_neg A.body B.body (area • d) c
  · rw [hneg]; exact contactFrict_neg A.body B.body (area • d) c

/-- Witness for C1 at concrete inputs: two unit circles at the origin under
the always-overlapping collaborator; the totals delivered to the two
bodies negate each other. -/
theorem collide_forces_antisymmetric_witness :
    contactTotal witItem.body
        ((-(1 : ℝ)) • (witItem.body.pos.val - witItem.body.pos.val)) 0
        (witItem.body.vel_at 0)
      = -contactTotal witItem.body
          ((1 : ℝ) • (witItem.body.pos.val - witItem.body.pos.val)) 0
          (witItem.body.vel_at 0) :=
  (collide_forces_antisymmetric someOracle [] witItem witItem 1
    (witItem.body.pos.val - witItem.body.pos.val) 0 rfl
    (by norm_num [AREA_EPS])).2.1

/-- C5: for circle-shaped items A and B whose disks overlap, the contact
axis is the raw, non-normalized vector `B.position − A.position`, and the
deformation handed to the two contacts is that raw axis scaled by the raw
overlap area (not its square root). -/
theorem circle_circle_raw_axis {σ : Type} (a : Actor σ) (o : Oracle) (s : σ)
    (A B : Item) (rA rB : ℝ) (m : Moment)
    (hA : A.shape = Shape.Circle rA) (hB : B.shape = Shape.Circle rB)
    (hm : o.diskDisk ⟨A.body.pos.val, rA⟩ ⟨B.body.pos.val, rB⟩ = some m)
    (hpos : m.area > AREA_EPS) :
    collideGeom o A B = some (m.area, B.body.pos.val - A.body.pos.val, m.centroid)
    ∧ Item.collide a o s A B =
        (let dir := B.body.pos.val - A.body.pos.val
         let r1 := Body.contact a s A.body ((-m.area) • dir) m.centroid
           (B.body.vel_at m.centroid)
         let r2 := Body.contact a r1.1 B.body (m.area • dir) m.centroid
           (r1.2.vel_at m.centroid)
         (r2.1, { A with body := r1.2 }, { B with body := r2.2 })) := by
  have hgA : A.geometry = Geometry.disk ⟨A.body.pos.val, rA⟩ := by
    unfold Item.geometry
    rw [hA]
  have hgB : B.geometry = Geometry.disk ⟨B.body.pos.val, rB⟩ := by
    unfold Item.geometry
    rw [hB]
  have hgeom : collideGeom o A B
      = some (m.area, B.body.pos.val - A.body.pos.val, m.centroid) := by
    unfold collideGeom
    rw [hgA, hgB]
    simp only []
    rw [hm]
    rfl
  refine ⟨hgeom, ?_⟩
  unfold Item.collide
  rw [hgeom]
  simp only []
  rw [if_pos hpos]

/-- Witness for C5 at concrete inputs: two unit circles at the origin under
the always-overlapping collaborator; the dispatch yields the raw
center-to-center axis and the raw area. -/
theorem circle_circle_raw_axis_witness :
    collideGeom someOracle witItem witItem
      = some ((1 : ℝ), witItem.body.pos.val - witItem.body.pos.val, (0 : Vec2)) :=
  (circle_circle_raw_axis DerivActor someOracle () witItem witItem 1 1 ⟨1, 0⟩
    rfl rfl rfl (by norm_num [AREA_EPS])).1

/-- C3: each of the 4 walls is a half-plane inset by the wall margin
fraction of the box's smaller half-extent component, with inward normal;
`contact_wall` calls `contact` with deformation `normal · area`, contact
point the overlap centroid and zero reference velocity exactly when the
overlap's area exceeds the epsilon, and applies no force otherwise. -/
theorem wall_contact_spec :
    (∀ (σ : Type) (a : Actor σ) (o : Oracle) (s : σ) (item : Item)
        (offset : ℝ) (normal : Vec2) (m : Moment),
      wallOverlay o item.geometry ⟨normal, offset⟩ = some m →
      m.area > AREA_EPS →
      contact_wall a o s item offset normal =
        (let r := Body.contact a s item.body (m.area • normal) m.centroid 0
         (r.1, { item with body := r.2 })))
    ∧ (∀ (σ : Type) (a : Actor σ) (o : Oracle) (s : σ) (item : Item)
        (offset : ℝ) (normal : Vec2),
      (∀ m, wallOverlay o item.geometry ⟨normal, offset⟩ = some m →
        ¬m.area > AREA_EPS) →
      contact_wall a o s item offset normal = (s, item))
    ∧ (∀ (σ : Type) (a : Actor σ) (o : Oracle) (size : Vec2) (s : σ)
        (item : Item),
      wallsPhase a o size s item =
        List.foldl (fun r w => contact_wall a o r.1 r.2 w.1 w.2) (s, item)
          [(-(size.x - WALL_OFFSET * size.min_element), ⟨1, 0⟩),
           (-(size.x - WALL_OFFSET * size.min_element), ⟨-1, 0⟩),
           (-(size.y - WALL_OFFSET * size.min_element), ⟨0, 1⟩),
           (-(size.y - WALL_OFFSET * size.min_element), ⟨0, -1⟩)]) := by
  refine ⟨?_, ?_, ?_⟩
  · intro σ a o s item offset normal m hov harea
    simp only [contact_wall]
    rw [hov]
    simp only []
    rw [if_pos harea]
  · intro σ a o s item offset normal hmiss
    simp only [contact_wall]
    cases hov : wallOverlay o item.geometry ⟨normal, offset⟩ with
    | none => rfl
    | some m =>
      simp only []
      rw [if_neg (hmiss m hov)]
  · intro σ a o size s item
    rfl

/-! ## The drag interface -/

/-- The pick test of `World::drag_acquire`: `point` lies within the item's
pick radius, by straight-line distance to the item's center. -/
def pickHit (p : Vec2) (item : Item) : Prop :=
  (p - item.body.pos.val).length < item.shape.radius

/-- The payload stored by `World::drag_acquire` on a hit: the acquisition
point re-expressed in the item's un-rotated local frame. -/
def pickLocal (p : Vec2) (item : Item) : Vec2 :=
  item.body.rot.val.inverse.transform (p - item.body.pos.val)

/-- The scan of `drag_acquire` misses exactly when every scanned item's
pick radius excludes the point. -/
theorem acquireScan_none_iff (p : Vec2) :
    ∀ (xs : List Item) (k : ℕ),
      World.acquireScan p xs k = none ↔ ∀ item ∈ xs, ¬pickHit p item := by
  intro xs
  induction xs with
  | nil => intro k; simp [World.acquireScan]
  | cons x rest ih =>
    intro k
    by_cases hx : (p - x.body.pos.val).length < x.shape.radius
    · simp [World.acquireScan, hx, pickHit]
    · simp [World.acquireScan, hx, pickHit, ih (k + 1)]
      intro _
      exact le_of_not_lt hx

/-- What a successful scan of `drag_acquire` returns, scanning `xs` with
indices starting at `k`: the index of the first item whose pick radius
contains the point, the point itself, and the point in that item's
un-rotated local frame. -/
theorem acquireScan_some (p : Vec2) :
    ∀ (xs : List Item) (k i : ℕ) (t l : Vec2),
      World.acquireScan p xs k = some (i, t, l) →
      k ≤ i ∧ i - k < xs.length ∧ t = p
      ∧ pickHit p (xs.getD (i - k) default)
      ∧ l = pickLocal p (xs.getD (i - k) default)
      ∧ ∀ j, j < i - k → ¬pickHit p (xs.getD j default) := by
  intro xs
  induction xs with
  | nil => intro k i t l h; simp [World.acquireScan] at h
  | cons x rest ih =>
    intro k i t l h
    by_cases hx : (p - x.body.pos.val).length < x.shape.radius
    · simp only [World.acquireScan] at h
      rw [if_pos hx] at h
      have hinj := Option.some.inj h
      have hi : k = i := congrArg Prod.fst hinj
      have ht : p = t := congrArg (fun z => z.2.1) hinj
      have hl : x.body.rot.val.inverse.transform (p - x.body.pos.val) = l :=
        congrArg (fun z => z.2.2) hinj
      subst hi
      refine ⟨le_refl k, by simp, ht.symm, ?_, ?_, ?_⟩
      · simp only [Nat.sub_self, List.getD_cons_zero]
        exact hx
      · simp only [Nat.sub_self, List.getD_cons_zero]
        exact hl.symm
      · intro j hj
        exact absurd hj (by omega)
    · simp only [World.acquireScan] at h
      rw [if_neg hx] at h
      obtain ⟨hk, hlen, ht, hhit, hloc, hfirst⟩ := ih (k + 1) i t l h
      have hik : k < i := by omega
      have hsub : i - k = (i - (k + 1)) + 1 := by omega
      refine ⟨by omega, by simp; omega, ht, ?_, ?_, ?_⟩
      · rw [hsub, List.getD_cons_succ]; exact hhit
      · rw [hsub, List.getD_cons_succ]; exact hloc
      · intro j hj
        cases j with
        | zero => simpa [pickHit] using hx
        | succ j' =>
          rw [List.getD_cons_succ]
          exact hfirst j' (by omega)

/-- C8: `drag_acquire(p)` scans items in storage order and selects the
first item whose pick radius (circle radius, or the rectangle's smaller
half-extent component) contains `p` by straight-line distance to its
center; on a hit it stores the item's index, the point `p`, and `p` in the
item's un-rotated local frame; on a total miss the drag state is absent
and subsequent `drag_move`/`drag_release` leave it absent. -/
theorem drag_acquire_scan_spec :
    (∀ (w : World) (p : Vec2),
      w.drag_acquire p = { w with drag := World.acquireScan p w.items 0 })
    ∧ (∀ r : ℝ, (Shape.Circle r).radius = r)
    ∧ (∀ sz : Vec2, (Shape.Rectangle sz).radius = sz.min_element)
    ∧ (∀ (w : World) (p : Vec2) (i : ℕ) (t l : Vec2),
      (w.drag_acquire p).drag = some (i, t, l) →
      i < w.items.length ∧ t = p
      ∧ pickHit p (w.items.getD i default)
      ∧ l = pickLocal p (w.items.getD i default)
      ∧ ∀ j, j < i → ¬pickHit p (w.items.getD j default))
    ∧ (∀ (w : World) (p q : Vec2),
      (∀ item ∈ w.items, ¬pickHit p item) →
      (w.drag_acquire p).drag = none
      ∧ ((w.drag_acquire p).drag_move q).drag = none
      ∧ ((w.drag_acquire p).drag_release).drag = none) := by
  refine ⟨fun w p => rfl, fun r => rfl, fun sz => rfl, ?_, ?_⟩
  · intro w p i t l h
    have h' : World.acquireScan p w.items 0 = some (i, t, l) := h
    obtain ⟨-, hlen, ht, hhit, hloc, hfirst⟩ :=
      acquireScan_some p w.items 0 i t l h'
    simp only [Nat.sub_zero] at hlen hhit hloc hfirst
    exact ⟨hlen, ht, hhit, hloc, hfirst⟩
  · intro w p q hmiss
    have hnone : World.acquireScan p w.items 0 = none :=
      (acquireScan_none_iff p w.items 0).mpr hmiss
    refine ⟨hnone, ?_, rfl⟩
    show (World.drag_move { w with drag := World.acquireScan p w.items 0 } q).drag
      = none
    rw [hnone]
    rfl

/-- C10 (implicit): `drag_acquire` overwrites the drag state with the scan
result even on a miss — an active drag is cleared when the point lies
outside every item's pick radius. -/
theorem drag_acquire_overwrites_on_miss (w : World) (p : Vec2)
    (hactive : w.drag ≠ none)
    (hmiss : ∀ item ∈ w.items, ¬pickHit p item) :
    (w.drag_acquire p).drag = none :=
  (acquireScan_none_iff p w.items 0).mpr hmiss

/-- A concrete world with one unit circle at the origin and an active drag
of it. -/
def witDragWorld : World := ⟨⟨2, 2⟩, [witItem], some (0, 0, 0)⟩

/-- Witness for C10: the point `(3, 0)` misses the unit circle at the
origin, and acquiring there clears the active drag. -/
theorem drag_overwrite_witness : (witDragWorld.drag_acquire ⟨3, 0⟩).drag = none := by
  apply drag_acquire_overwrites_on_miss
  · intro hc
    simp [witDragWorld] at hc
  · intro item him
    have hit : item = witItem := by simpa [witDragWorld] using him
    subst hit
    unfold pickHit
    have hv : (Vec2.mk 3 0 - witItem.body.pos.val) = ⟨3, 0⟩ := by
      apply Vec2.ext <;> simp [witItem]
    rw [hv]
    have hlen3 : (Vec2.mk 3 0).length = 3 := by
      unfold Vec2.length
      norm_num
      rw [show (9 : ℝ) = 3 ^ 2 by norm_num]
      exact Real.sqrt_sq (by norm_num)
    rw [hlen3]
    show ¬(3 : ℝ) < witItem.shape.radius
    norm_num [witItem, Shape.radius]

/-! ## Drag-state invariant -/

/-- The drag-state invariant: the drag item index, when present, refers to
a live item. -/
def World.DragInv (w : World) : Prop :=
  ∀ i t l, w.drag = some (i, t, l) → i < w.items.length

/-- Modelled from the spec: the "is dragging" query — `src/lib.rs` stores
the drag state in the `drag` field but exposes no named query; the
observable is whether `drag` is present. -/
def World.is_dragging (w : World) : Bool := w.drag.isSome

theorem itemsPhase_len {σ : Type} (a : Actor σ) (o : Oracle) (size : Vec2) :
    ∀ (s : σ) (items : List Item),
      ((itemsPhase a o size s items).2).length = items.length := by
  intro s items
  induction items generalizing s with
  | nil => rfl
  | cons x xs ih => simp [itemsPhase, ih]

theorem pairPhase_len {σ : Type} (a : Actor σ) (o : Oracle) :
    ∀ (n : ℕ) (s : σ) (items : List Item), items.length = n →
      ((pairPhase a o s items).2).length = n := by
  intro n
  induction n with
  | zero =>
    intro s items h
    rw [List.length_eq_zero] at h
    subst h
    simp [pairPhase]
  | succ n ih =>
    intro s items h
    cases items with
    | nil => simp at h
    | cons x xs =>
      simp only [List.length_cons, Nat.succ.injEq] at h
      simp only [pairPhase, List.length_cons]
      rw [ih _ _ (by rw [collideSeq_len]; exact h)]

theorem dragPhase_len {σ : Type} (a : Actor σ) :
    ∀ (s : σ) (drag : Option (ℕ × Vec2 × Vec2)) (items : List Item),
      ((dragPhase a s drag items).2).length = items.length := by
  intro s drag items
  cases drag with
  | none => rfl
  | some d =>
    obtain ⟨i, t, l⟩ := d
    simp [dragPhase]

theorem compute_derivs_items_len {σ : Type} (a : Actor σ) (o : Oracle)
    (s : σ) (w : World) :
    ((World.compute_derivs_ext a o s w).2).items.length = w.items.length := by
  show ((dragPhase a _ w.drag _).2).length = _
  rw [dragPhase_len,
    pairPhase_len a o w.items.length _ _ (itemsPhase_len a o w.size s w.items)]

/-- C7: the drag-state invariant holds after every `World` operation — the
drag index, when present, refers to a live item — and `remove_item`
unconditionally sets the drag state to absent (the is-dragging query then
answers false), for every index, dragged or not. -/
theorem remove_item_clears_drag :
    (∀ (w : World) (i : ℕ), (w.remove_item i).drag = none)
    ∧ (∀ (w : World) (i : ℕ), (w.remove_item i).is_dragging = false)
    ∧ (∀ size : Vec2, (World.new size).DragInv)
    ∧ (∀ (w : World) (p : Vec2), (w.drag_acquire p).DragInv)
    ∧ (∀ (w : World) (p : Vec2), w.DragInv → (w.drag_move p).DragInv)
    ∧ (∀ w : World, w.drag_release.DragInv)
    ∧ (∀ (w : World) (i : ℕ), (w.remove_item i).DragInv)
    ∧ (∀ (w : World) (it : Item), w.DragInv → (w.insert_item it).DragInv)
    ∧ (∀ (w : World) (sz : Vec2), w.DragInv → (w.resize sz).DragInv)
    ∧ (∀ (σ : Type) (a : Actor σ) (o : Oracle) (s : σ) (w : World),
        w.DragInv → ((World.compute_derivs_ext a o s w).2).DragInv) := by
  refine ⟨fun w i => rfl, fun w i => rfl, ?_, ?_, ?_, ?_, ?_, ?_, ?_, ?_⟩
  · intro size i t l h
    simp [World.new] at h
  · intro w p i t l h
    have h' : World.acquireScan p w.items 0 = some (i, t, l) := h
    have := (acquireScan_some p w.items 0 i t l h').2.1
    simpa using this
  · intro w p hInv i t l h
    unfold World.drag_move at h
    cases hd : w.drag with
    | none => simp [hd] at h
    | some d =>
      obtain ⟨i0, t0, l0⟩ := d
      simp only [hd] at h
      simp only [Option.some.injEq, Prod.mk.injEq] at h
      obtain ⟨h1, -, -⟩ := h
      subst h1
      have hitems : (w.drag_move p).items = w.items := by
        unfold World.drag_move
        rw [hd]
      rw [hitems]
      exact hInv i0 t0 l0 hd
  · intro w i t l h
    simp [World.drag_release] at h
  · intro w i i' t l h
    simp [World.remove_item] at h
  · intro w it hInv i t l h
    have hi := hInv i t l h
    show i < (w.items ++ [it]).length
    rw [List.length_append]
    omega
  · exact fun w sz hInv i t l h => hInv i t l h
  · intro σ a o s w hInv i t l h
    show i < ((World.compute_derivs_ext a o s w).2).items.length
    rw [compute_derivs_items_len]
    exact hInv i t l h

/-! ## Purity of the derivative pass -/

/-- A body's current (non-derivative) state: mass, position, linear
velocity, inertia, orientation, angular velocity. -/
def bodySig (b : Body) : ℝ × Vec2 × Vec2 × ℝ × Rot2 × ℝ :=
  (b.mass, b.pos.val, b.vel.val, b.inm, b.rot.val, b.asp.val)

/-- An item's current state: its body's current state and its shape. -/
def itemSig (it : Item) : (ℝ × Vec2 × Vec2 × ℝ × Rot2 × ℝ) × Shape :=
  (bodySig it.body, it.shape)

/-- A sink that only accumulates derivatives: every application leaves the
body's current values (and mass, inertia) unchanged. -/
def Actor.DerivOnly {σ : Type} (a : Actor σ) : Prop :=
  ∀ s b pos force, bodySig ((a.apply s b pos force).2) = bodySig b

/-- `Body::attract` delivers one force to the sink, at the world anchor. -/
theorem Body.attract_eq_apply {σ : Type} (a : Actor σ) (s : σ) (b : Body)
    (target self_pos : Vec2) :
    Body.attract a s b target self_pos =
      a.apply s b (b.pos.val + b.rot.val.transform self_pos)
        (ELAST • (target - (b.pos.val + b.rot.val.transform self_pos))
          + (-MOUSE_DAMP) • (b.vel.val
              + angular_to_linear2 b.asp.val (b.rot.val.transform self_pos))) := rfl

theorem contact_sig {σ : Type} {a : Actor σ} (h : a.DerivOnly) (s : σ)
    (b : Body) (defo pos vel : Vec2) :
    bodySig ((Body.contact a s b defo pos vel).2) = bodySig b := by
  rw [Body.contact_eq_apply]
  exact h s b pos _

theorem attract_sig {σ : Type} {a : Actor σ} (h : a.DerivOnly) (s : σ)
    (b : Body) (target self_pos : Vec2) :
    bodySig ((Body.attract a s b target self_pos).2) = bodySig b := by
  rw [Body.attract_eq_apply]
  exact h s b _ _

theorem contact_wall_sig {σ : Type} {a : Actor σ} (h : a.DerivOnly)
    (o : Oracle) (s : σ) (item : Item) (offset : ℝ) (normal : Vec2) :
    itemSig ((contact_wall a o s item offset normal).2) = itemSig item := by
  simp only [contact_wall]
  cases hov : wallOverlay o item.geometry ⟨normal, offset⟩ with
  | none => rfl
  | some m =>
    simp only []
    by_cases harea : m.area > AREA_EPS
    · rw [if_pos harea]
      simp only [itemSig]
      rw [contact_sig h]
    · rw [if_neg harea]

theorem wallsPhase_sig {σ : Type} {a : Actor σ} (h : a.DerivOnly)
    (o : Oracle) (size : Vec2) (s : σ) (item : Item) :
    itemSig ((wallsPhase a o size s item).2) = itemSig item := by
  simp only [wallsPhase]
  rw [contact_wall_sig h, contact_wall_sig h, contact_wall_sig h,
    contact_wall_sig h]

theorem bodySig_air_update (b : Body) (dv : Vec2) (da : ℝ) :
    bodySig { b with vel := { b.vel with deriv := dv },
                     asp := { b.asp with deriv := da } } = bodySig b := rfl

theorem bodySig_kin_update (b : Body) (dp : Vec2) (dr : ℝ) :
    bodySig { b with pos := { b.pos with deriv := dp },
                     rot := { b.rot with deriv := dr } } = bodySig b := rfl

theorem itemStep_sig {σ : Type} {a : Actor σ} (h : a.DerivOnly) (o : Oracle)
    (size : Vec2) (s : σ) (item : Item) :
    itemSig ((itemStep a o size s item).2) = itemSig item := by
  simp only [itemStep]
  rw [wallsPhase_sig h]
  simp only [itemSig]
  rw [bodySig_air_update, h, bodySig_kin_update]

theorem collide_sig {σ : Type} {a : Actor σ} (h : a.DerivOnly) (o : Oracle)
    (s : σ) (self other : Item) :
    itemSig ((Item.collide a o s self other).2.1) = itemSig self
    ∧ itemSig ((Item.collide a o s self other).2.2) = itemSig other := by
  unfold Item.collide
  cases hg : collideGeom o self other with
  | none => exact ⟨rfl, rfl⟩
  | some r =>
    obtain ⟨area, d, c⟩ := r
    simp only []
    by_cases harea : area > AREA_EPS
    · rw [if_pos harea]
      constructor
      · simp only [itemSig]
        rw [contact_sig h]
      · simp only [itemSig]
        rw [contact_sig h]
    · rw [if_neg harea]
      exact ⟨rfl, rfl⟩

theorem collideSeq_sig {σ : Type} {a : Actor σ} (h : a.DerivOnly) (o : Oracle) :
    ∀ (s : σ) (this : Item) (others : List Item),
      itemSig ((collideSeq a o s this others).2.1) = itemSig this
      ∧ ((collideSeq a o s this others).2.2).map itemSig = others.map itemSig := by
  intro s this others
  induction others generalizing s this with
  | nil => exact ⟨rfl, rfl⟩
  | cons other rest ih =>
    simp only [collideSeq]
    constructor
    · rw [(ih _ _).1, (collide_sig h o s this other).1]
    · simp only [List.map_cons]
      rw [(ih _ _).2, (collide_sig h o s this other).2]

theorem pairPhase_sig {σ : Type} {a : Actor σ} (h : a.DerivOnly) (o : Oracle) :
    ∀ (n : ℕ) (s : σ) (items : List Item), items.length = n →
      ((pairPhase a o s items).2).map itemSig = items.map itemSig := by
  intro n
  induction n with
  | zero =>
    intro s items hlen
    rw [List.length_eq_zero] at hlen
    subst hlen
    simp [pairPhase]
  | succ n ih =>
    intro s items hlen
    cases items with
    | nil => simp at hlen
    | cons x xs =>
      simp only [List.length_cons, Nat.succ.injEq] at hlen
      simp only [pairPhase, List.map_cons]
      rw [ih _ _ (by rw [collideSeq_len]; exact hlen),
        (collideSeq_sig h o s x xs).1, (collideSeq_sig h o s x xs).2]

theorem map_itemSig_set :
    ∀ (items : List Item) (i : ℕ) (it' : Item),
      itemSig it' = itemSig (items.getD i default) →
      (items.set i it').map itemSig = items.map itemSig := by
  intro items
  induction items with
  | nil => intro i it' h; rfl
  | cons x xs ih =>
    intro i it' h
    cases i with
    | zero =>
      simp only [List.getD_cons_zero] at h
      simp only [List.set_cons_zero, List.map_cons, h]
    | succ i' =>
      simp only [List.getD_cons_succ] at h
      simp only [List.set_cons_succ, List.map_cons]
      rw [ih i' it' h]

theorem dragPhase_sig {σ : Type} {a : Actor σ} (h : a.DerivOnly) :
    ∀ (s : σ) (drag : Option (ℕ × Vec2 × Vec2)) (items : List Item),
      ((dragPhase a s drag items).2).map itemSig = items.map itemSig := by
  intro s drag items
  cases drag with
  | none => rfl
  | some dd =>
    obtain ⟨i, t, l⟩ := dd
    simp only [dragPhase]
    apply map_itemSig_set
    simp only [itemSig]
    rw [attract_sig h]

theorem itemsPhase_sig {σ : Type} {a : Actor σ} (h : a.DerivOnly) (o : Oracle)
    (size : Vec2) :
    ∀ (s : σ) (items : List Item),
      ((itemsPhase a o size s items).2).map itemSig = items.map itemSig := by
  intro s items
  induction items generalizing s with
  | nil => rfl
  | cons x xs ih =>
    simp only [itemsPhase, List.map_cons]
    rw [ih, itemStep_sig h]

/-- C6: with a sink that only accumulates derivatives (as the
derivative-accumulating sink does), `compute_derivs_ext` never mutates any
item's current position, linear velocity, orientation or angular velocity,
nor the masses, inertias, shapes, item count, box half-extent, or drag
state: its only effects are the sink calls and derivative accumulation. -/
theorem compute_derivs_pure {σ : Type} (a : Actor σ) (o : Oracle) (s : σ)
    (w : World) (h : a.DerivOnly) :
    ((World.compute_derivs_ext a o s w).2).size = w.size
    ∧ ((World.compute_derivs_ext a o s w).2).drag = w.drag
    ∧ (((World.compute_derivs_ext a o s w).2).items).map itemSig
        = w.items.map itemSig := by
  refine ⟨rfl, rfl, ?_⟩
  show ((dragPhase a _ w.drag _).2).map itemSig = _
  rw [dragPhase_sig h,
    pairPhase_sig h o w.items.length _ _ (itemsPhase_len a o w.size s w.items),
    itemsPhase_sig h o w.size]

/-- Witness for C6: the derivative-accumulating sink on a concrete world
with one item and an active drag leaves size, drag and every item's
current state unchanged. -/
theorem compute_derivs_pure_witness :
    ((World.compute_derivs_ext DerivActor someOracle () witDragWorld).2).size
        = witDragWorld.size
    ∧ ((World.compute_derivs_ext DerivActor someOracle () witDragWorld).2).drag
        = witDragWorld.drag
    ∧ (((World.compute_derivs_ext DerivActor someOracle () witDragWorld).2).items).map
          itemSig
        = witDragWorld.items.map itemSig :=
  compute_derivs_pure DerivActor someOracle () witDragWorld (fun _ _ _ _ => rfl)

/-! ## The pairwise loop as a fold over index pairs -/

/-- One pairwise collision at a pair of item indices: read both items,
collide them, write both back. -/
def collideAt {σ : Type} (a : Actor σ) (o : Oracle) (r : σ × List Item)
    (p : ℕ × ℕ) : σ × List Item :=
  let x := r.2.getD p.1 default
  let y := r.2.getD p.2 default
  let c := Item.collide a o r.1 x y
  (c.1, (r.2.set p.1 c.2.1).set p.2 c.2.2)

/-- The index pairs the `split_at_mut` loop visits over `n` items, in
visit order: `(0,1) … (0,n−1), (1,2) …`. -/
def pairIdx : ℕ → List (ℕ × ℕ)
  | 0 => []
  | n + 1 =>
    ((List.range' 1 n).map fun j => (0, j))
      ++ (pairIdx n).map fun p => (p.1 + 1, p.2 + 1)

theorem getD_append_len :
    ∀ (pre : List Item) (y : Item) (rest : List Item),
      (pre ++ y :: rest).getD pre.length default = y := by
  intro pre
  induction pre with
  | nil => intro y rest; rfl
  | cons p ps ih =>
    intro y rest
    simpa [List.getD_cons_succ] using ih y rest

theorem set_append_len :
    ∀ (pre : List Item) (y v : Item) (rest : List Item),
      (pre ++ y :: rest).set pre.length v = pre ++ v :: rest := by
  intro pre
  induction pre with
  | nil => intro y v rest; rfl
  | cons p ps ih =>
    intro y v rest
    simp [List.set_cons_succ, ih y v rest]

theorem collideAt_cons {σ : Type} (a : Actor σ) (o : Oracle) (s : σ)
    (x : Item) (xs : List Item) (p : ℕ × ℕ) :
    collideAt a o (s, x :: xs) (p.1 + 1, p.2 + 1)
      = (let c := collideAt a o (s, xs) p
         (c.1, x :: c.2)) := by
  simp only [collideAt, List.getD_cons_succ, List.set_cons_succ]

theorem foldIdx_lift {σ : Type} (a : Actor σ) (o : Oracle) :
    ∀ (ps : List (ℕ × ℕ)) (s : σ) (x : Item) (xs : List Item),
      List.foldl (collideAt a o) (s, x :: xs)
          (ps.map fun p => (p.1 + 1, p.2 + 1))
        = (let r := List.foldl (collideAt a o) (s, xs) ps
           (r.1, x :: r.2)) := by
  intro ps
  induction ps with
  | nil => intro s x xs; rfl
  | cons p ps ih =>
    intro s x xs
    simp only [List.map_cons, List.foldl_cons]
    rw [collideAt_cons]
    exact ih _ _ _

theorem foldIdx_seq {σ : Type} (a : Actor σ) (o : Oracle) :
    ∀ (rest pre : List Item) (s : σ) (x : Item),
      List.foldl (collideAt a o) (s, x :: (pre ++ rest))
          ((List.range' (pre.length + 1) rest.length).map fun j => (0, j))
        = (let r := collideSeq a o s x rest
           (r.1, r.2.1 :: (pre ++ r.2.2))) := by
  intro rest
  induction rest with
  | nil => intro pre s x; rfl
  | cons y rest ih =>
    intro pre s x
    simp only [List.length_cons, List.range'_succ, List.map_cons,
      List.foldl_cons]
    have hstep : collideAt a o (s, x :: (pre ++ y :: rest)) (0, pre.length + 1)
        = (let c := Item.collide a o s x y
           (c.1, c.2.1 :: (pre ++ c.2.2 :: rest))) := by
      simp only [collideAt, List.getD_cons_zero, List.getD_cons_succ,
        List.set_cons_zero, List.set_cons_succ]
      rw [getD_append_len, set_append_len]
    rw [hstep]
    have hassoc : ∀ (z : Item) (zs : List Item),
        (pre ++ [z]) ++ zs = pre ++ z :: zs := by
      intro z zs; simp
    simp only [collideSeq]
    have ihx := ih (pre ++ [(Item.collide a o s x y).2.2])
      (Item.collide a o s x y).1 (Item.collide a o s x y).2.1
    simp only [List.length_append, List.length_cons, List.length_nil,
      Nat.zero_add, hassoc] at ihx
    exact ihx

/-- `pairIdx n` contains exactly the pairs of distinct indices `i < j < n`
(ordered, no self-pairs). -/
theorem pairIdx_mem : ∀ (n : ℕ) (p : ℕ × ℕ),
    p ∈ pairIdx n ↔ p.1 < p.2 ∧ p.2 < n := by
  intro n
  induction n with
  | zero => intro p; simp [pairIdx]
  | succ n ih =>
    intro p
    obtain ⟨p1, p2⟩ := p
    simp only [pairIdx, List.mem_append, List.mem_map, List.mem_range'_1,
      ih, Prod.mk.injEq]
    constructor
    · rintro (⟨j, ⟨hj1, hj2⟩, h0, hj⟩ | ⟨⟨q1, q2⟩, ⟨ha, hb⟩, hc, hd⟩)
      · omega
      · simp only [] at ha hb hc hd
        omega
    · rintro ⟨h12, h2n⟩
      by_cases h1 : p1 = 0
      · exact Or.inl ⟨p2, ⟨by omega, by omega⟩, h1.symm, rfl⟩
      · exact Or.inr ⟨(p1 - 1, p2 - 1), ⟨by omega, by omega⟩, by omega, by omega⟩

/-- `pairIdx n` visits no pair twice. -/
theorem pairIdx_nodup : ∀ n : ℕ, (pairIdx n).Nodup := by
  intro n
  induction n with
  | zero => simp [pairIdx]
  | succ n ih =>
    simp only [pairIdx]
    rw [List.nodup_append]
    refine ⟨?_, ?_, ?_⟩
    · apply List.Nodup.map
      · intro a b hab
        simpa using hab
      · exact List.nodup_range' 1 n
    · apply List.Nodup.map _ ih
      intro q r hqr
      obtain ⟨q1, q2⟩ := q
      obtain ⟨r1, r2⟩ := r
      simp only [Prod.mk.injEq] at hqr
      simp only [Prod.mk.injEq]
      omega
    · intro p hp hq
      simp only [List.mem_map, List.mem_range'_1] at hp hq
      obtain ⟨j, -, hj⟩ := hp
      obtain ⟨q, -, hq'⟩ := hq
      rw [← hj] at hq'
      have h0 := congrArg Prod.fst hq'
      simp at h0

/-- The `split_at_mut` loop equals the fold of one pairwise collision over
`pairIdx`, the ordered list of index pairs. -/
theorem pairPhase_eq_foldIdx {σ : Type} (a : Actor σ) (o : Oracle) :
    ∀ (n : ℕ) (s : σ) (items : List Item), items.length = n →
      pairPhase a o s items
        = List.foldl (collideAt a o) (s, items) (pairIdx items.length) := by
  intro n
  induction n with
  | zero =>
    intro s items h
    rw [List.length_eq_zero] at h
    subst h
    simp [pairPhase, pairIdx]
  | succ n ih =>
    intro s items h
    cases items with
    | nil => simp at h
    | cons x xs =>
      simp only [List.length_cons, Nat.succ.injEq] at h
      simp only [pairPhase, List.length_cons, pairIdx, List.foldl_append]
      have hseq := foldIdx_seq a o xs [] s x
      simp only [List.length_nil, List.nil_append, Nat.zero_add] at hseq
      rw [hseq, foldIdx_lift]
      have hlen2 : (collideSeq a o s x xs).2.2.length = xs.length :=
        collideSeq_len a o s x xs
      rw [← hlen2,
        ← ih (collideSeq a o s x xs).1 (collideSeq a o s x xs).2.2
          (by rw [hlen2]; exact h)]

/-- C4: `compute_derivs_ext` runs, in order: first the per-item phase over
the items in storage order — kinematics
(`pos.deriv += vel`, `rot.deriv += asp`), then gravity `mass·g` through the
sink, then linear and angular air resistance, then the four wall tests;
second, the pairwise loop, which equals the fold of one pairwise collision
over `pairIdx n` — the list containing each ordered pair of distinct
indices `i < j < n` exactly once (no self-pairs, no double counting);
third, if a drag is active, the attraction of the referenced item's stored
local anchor toward the stored world target. -/
theorem compute_derivs_order {σ : Type} (a : Actor σ) (o : Oracle) :
    (∀ (s : σ) (w : World),
      World.compute_derivs_ext a o s w =
        (let r1 := itemsPhase a o w.size s w.items
         let r2 := pairPhase a o r1.1 r1.2
         let r3 := dragPhase a r2.1 w.drag r2.2
         (r3.1, { w with items := r3.2 })))
    ∧ (∀ (size : Vec2) (s : σ) (x : Item) (rest : List Item),
      itemsPhase a o size s (x :: rest) =
        (let r := itemStep a o size s x
         let r2 := itemsPhase a o size r.1 rest
         (r2.1, r.2 :: r2.2)))
    ∧ (∀ (size : Vec2) (s : σ) (item : Item),
      itemStep a o size s item =
        (let body := { item.body with
          pos := { item.body.pos with
            deriv := item.body.pos.deriv + item.body.vel.val },
          rot := { item.body.rot with
            deriv := item.body.rot.deriv + item.body.asp.val } }
         let rg := a.apply s body body.pos.val (body.mass • GRAV)
         let body2 := { rg.2 with
          vel := { rg.2.vel with
            deriv := rg.2.vel.deriv
              + (-(AIRF * item.shape.radius / rg.2.mass)) • rg.2.vel.val },
          asp := { rg.2.asp with
            deriv := rg.2.asp.deriv
              + (-(AIRF * item.shape.radius / rg.2.inm)) * rg.2.asp.val } }
         wallsPhase a o size rg.1 { item with body := body2 }))
    ∧ (∀ (s : σ) (items : List Item),
      pairPhase a o s items
        = List.foldl (collideAt a o) (s, items) (pairIdx items.length))
    ∧ (∀ (n : ℕ) (p : ℕ × ℕ), p ∈ pairIdx n ↔ p.1 < p.2 ∧ p.2 < n)
    ∧ (∀ n : ℕ, (pairIdx n).Nodup)
    ∧ (∀ (s : σ) (i : ℕ) (t l : Vec2) (items : List Item),
      dragPhase a s (some (i, t, l)) items =
        (let item := items.getD i default
         let r := Body.attract a s item.body t l
         (r.1, items.set i { item with body := r.2 })))
    ∧ (∀ (s : σ) (items : List Item), dragPhase a s none items = (s, items)) :=
  ⟨fun s w => rfl, fun size s x rest => rfl, fun size s item => rfl,
   fun s items => pairPhase_eq_foldIdx a o items.length s items rfl,
   pairIdx_mem, pairIdx_nodup, fun s i t l items => rfl, fun s items => rfl⟩
